import Mathlib

/-!
# Verification of the Adaptive Pricing & Experimentation Engine

Shallow embedding of the pricing / experimentation / promotion core of the
`prompt-business-automation` repository (files `optimization-engine.js`,
`promotion-service.js`, `snackprompt-api.js`), together with proofs and
refutations of the specification's testable properties.

Modelling conventions:
* JavaScript numbers are modelled as `ℚ` (the arithmetic appearing in the
  embedded code — `*`, `/`, `min`, `max`, comparisons, `Math.round` — is
  exact on the rationals involved).
* `Math.round` is `jsRound` below (half rounds toward `+∞`).
* An `async` call that can reject is modelled as a function into
  `Except String α` (the `String` being `error.message`); a `try`/`catch`
  block becomes a `match` on that `Except`.
* Timestamps are modelled at the granularity the code observes them:
  hours since a fixed Sunday-midnight epoch for the analytics bucketing
  (`new Date(ts).getDay()` / `.getHours()`), a day-number plus hour-of-day
  for `getNextOccurrence`, and plain integral milliseconds where only
  arithmetic happens (promotion end dates).
-/

/-- JavaScript `Math.round`: round half toward positive infinity. -/
def jsRound (x : ℚ) : ℤ := ⌊x + 1/2⌋

/-- A listing snapshot as consumed by the engine: the fields of the stats /
analytics objects read by `hourlyOptimization`, `dailyOptimization` and
`weeklyRenovation` (`prompt.price`, `prompt.conversion_rate`, …).
`creation_date` is an optional epoch-milliseconds timestamp. -/
structure Prompt where
  id : ℕ
  title : String
  description : String
  price : ℚ
  conversion_rate : ℚ
  views_last_hour : ℚ
  total_views : ℚ
  currently_testing : Bool
  price_changed_recently : Bool
  creation_date : Option ℤ := none
  on_promotion : Bool := false
  promotion_percentage : ℚ := 0
deriving DecidableEq, Repr

/-- The engine's configurable price bounds (`MIN_PROMPT_PRICE` /
`MAX_PROMPT_PRICE` environment variables, defaulting to 25 / 150 in the
`OptimizationEngine` constructor). -/
structure EngineConfig where
  minPromptPrice : ℚ
  maxPromptPrice : ℚ
deriving DecidableEq, Repr

/-- Constructor defaults: `MIN_PROMPT_PRICE || 25`, `MAX_PROMPT_PRICE || 150`. -/
def defaultEngineConfig : EngineConfig := { minPromptPrice := 25, maxPromptPrice := 150 }

/-- `this.minPriceAdjustment = 0.95`. -/
def minPriceAdjustment : ℚ := 95/100

/-- `this.maxPriceAdjustment = 1.05`. -/
def maxPriceAdjustment : ℚ := 105/100

/-- `this.highConversionThreshold = 0.12`. -/
def highConversionThreshold : ℚ := 12/100

/-- `this.lowConversionThreshold = 0.03`. -/
def lowConversionThreshold : ℚ := 3/100

/-- `this.highViewThreshold = 20`. -/
def highViewThreshold : ℚ := 20

/-- `this.minTestViews = 100`. -/
def minTestViews : ℚ := 100

/-- A notification payload handed to `sendNotification`. -/
structure Notif where
  ntype : String
  subject : String
  message : String
deriving DecidableEq, Repr

/-! ## Hourly optimization (`OptimizationEngine.hourlyOptimization`) -/

/-- The price decision taken for a single prompt inside the hourly loop:
the guard chain of `hourlyOptimization` (skip when `currently_testing`,
increase on high conversion + high views when the clamped new price exceeds
`price + 1`, decrease on very high views + low conversion when the clamped
new price is below `price - 1`). -/
inductive HourlyDecision where
  | increase (newPrice : ℚ)
  | decrease (newPrice : ℚ)
  | skip
deriving DecidableEq, Repr

def hourlyDecision (cfg : EngineConfig) (p : Prompt) : HourlyDecision :=
  if p.currently_testing then .skip
  else if p.conversion_rate > highConversionThreshold ∧ p.views_last_hour > highViewThreshold then
    if min (p.price * maxPriceAdjustment) cfg.maxPromptPrice > p.price + 1 then
      .increase (min (p.price * maxPriceAdjustment) cfg.maxPromptPrice)
    else .skip
  else if p.views_last_hour > highViewThreshold * (3/2) ∧ p.conversion_rate < lowConversionThreshold then
    if max (p.price * minPriceAdjustment) cfg.minPromptPrice < p.price - 1 then
      .decrease (max (p.price * minPriceAdjustment) cfg.minPromptPrice)
    else .skip
  else .skip

/-- An entry of the `updatedPrompts` list returned by `hourlyOptimization`. -/
structure UpdateRec where
  id : ℕ
  oldPrice : ℚ
  newPrice : ℚ
  reason : String
deriving DecidableEq, Repr

/-- The error notification sent by `hourlyOptimization`'s `catch` block. -/
def hourlyErrorNotif (e : String) : Notif :=
  { ntype := "error", subject := "Erreur d’optimisation horaire",
    message := "Une erreur est survenue lors de l’optimisation horaire: " ++ e }

/-- The `for` loop of `hourlyOptimization`: walks the stats, issues an
`api.updatePromptPrice` call (`env`) for each applied decision and collects
the `updatedPrompts` entries.  Returns the issued price-mutation calls
together with either the record list or the first uncaught rejection (the
loop body has no `catch`, so a failing update aborts the batch). -/
def hourlyLoop (cfg : EngineConfig) (env : ℕ → ℚ → Except String Unit) :
    List Prompt → List (ℕ × ℚ) × Except String (List UpdateRec)
  | [] => ([], .ok [])
  | p :: ps =>
    match hourlyDecision cfg p with
    | .skip => hourlyLoop cfg env ps
    | .increase np =>
      match env p.id np with
      | .error e => ([(p.id, np)], .error e)
      | .ok _ =>
        let rest := hourlyLoop cfg env ps
        ((p.id, np) :: rest.1,
         rest.2.map (fun rs => ⟨p.id, p.price, np, "increase_high_conversion"⟩ :: rs))
    | .decrease np =>
      match env p.id np with
      | .error e => ([(p.id, np)], .error e)
      | .ok _ =>
        let rest := hourlyLoop cfg env ps
        ((p.id, np) :: rest.1,
         rest.2.map (fun rs => ⟨p.id, p.price, np, "decrease_low_conversion"⟩ :: rs))

/-- `hourlyOptimization(stats)`: the `try` body is `hourlyLoop`; the `catch`
block sends an error notification and returns `[]`.  Result: issued price
mutations, returned record list, sent notifications. -/
def hourlyOptimization (cfg : EngineConfig) (env : ℕ → ℚ → Except String Unit)
    (stats : List Prompt) : List (ℕ × ℚ) × List UpdateRec × List Notif :=
  match hourlyLoop cfg env stats with
  | (calls, .ok recs) => (calls, recs, [])
  | (calls, .error e) => (calls, [], [hourlyErrorNotif e])

/-- The `updatedPrompts` list returned to the caller of `hourlyOptimization`. -/
def hourlyRecords (cfg : EngineConfig) (env : ℕ → ℚ → Except String Unit)
    (stats : List Prompt) : List UpdateRec :=
  (hourlyOptimization cfg env stats).2.1

/-- An always-succeeding `api.updatePromptPrice` environment. -/
def okPriceEnv : ℕ → ℚ → Except String Unit := fun _ _ => .ok ()

/-! ## Experiment controller (`OptimizationEngine.startABTest`) and daily run -/

/-- One entry of the stored `variations.results` list. -/
structure TestResult where
  title : String
  description : String
  conversion : ℚ
deriving DecidableEq, Repr

/-- The stored variations of a prompt (`retrievePromptVariations`).
`tested_count` defaults to 0 (`variations.tested_count || 0`). -/
structure Variations where
  titles : List String
  descriptions : List String
  tested_count : ℕ := 0
  results : List TestResult := []
deriving DecidableEq, Repr

/-- Descending-by-`conversion` ordering used by
`results.sort((a, b) => b.conversion - a.conversion)`. -/
def convGe (a b : TestResult) : Prop := b.conversion ≤ a.conversion

instance : DecidableRel convGe :=
  fun a b => inferInstanceAs (Decidable (b.conversion ≤ a.conversion))

/-- `results.sort((a, b) => b.conversion - a.conversion)`: JavaScript
`Array.prototype.sort` is a stable sort; with this comparator it sorts by
`conversion` descending, keeping first-seen order among ties.  Insertion
sort with the non-strict relation `convGe` has exactly that behaviour. -/
def jsSortByConversionDesc (l : List TestResult) : List TestResult :=
  l.insertionSort convGe

/-- The field updates passed to `api.updatePrompt` (only the fields some
call site actually sends; `none` = field absent from the payload). -/
structure UpdateFields where
  title : Option String := none
  description : Option String := none
  currently_testing : Option Bool := none
  price : Option ℚ := none
  on_promotion : Option Bool := none
  promotion_percentage : Option ℚ := none
  promotion_end_date : Option ℚ := none
  last_refresh_date : Option ℚ := none
deriving DecidableEq, Repr

/-- The action records pushed into the `actions` lists of
`dailyOptimization` / `weeklyRenovation` (the `type` field of the source
object is the constructor name; `timestamp` is dropped). -/
inductive OptAction where
  | start_ab_test (promptId : ℕ) (variationIndex : ℕ) (title description : String)
  | apply_best_variation (promptId : ℕ) (variation : TestResult)
  | improve_content (promptId : ℕ) (oldTitle newTitle oldDescription newDescription : String)
  | optimize_long_term_price_up (promptId : ℕ) (oldPrice newPrice elasticity : ℚ)
  | optimize_long_term_price_down (promptId : ℕ) (oldPrice newPrice elasticity : ℚ)
  | refresh_content (promptId : ℕ) (oldTitle newTitle oldDescription newDescription : String)
  | remove_promotion (promptId : ℕ) (oldPrice newPrice promotionPercentage : ℚ)
  | apply_promotion (promptId : ℕ) (oldPrice newPrice promotionPercentage : ℚ)
deriving DecidableEq, Repr

/-- Actions of type `start_ab_test` or `apply_best_variation` (the two
possible outcomes of `startABTest`). -/
def isExperimentAction : OptAction → Bool
  | .start_ab_test _ _ _ _ => true
  | .apply_best_variation _ _ => true
  | _ => false

/-- Actions of type `improve_content`. -/
def isImproveAction : OptAction → Bool
  | .improve_content _ _ _ _ _ => true
  | _ => false

/-- The external collaborators awaited inside `dailyOptimization`:
`retrievePromptVariations` (may resolve to `null`, hence the `Option`),
`api.updatePrompt`, `analyticsService.getLongTermTrends` (the
`price_elasticity` field, `none` when the data or field is missing) and
`api.updatePromptPrice`.  Each may reject with an error message. -/
structure DailyEnv where
  variations : ℕ → Except String (Option Variations)
  updatePrompt : ℕ → UpdateFields → Except String Unit
  trends : ℕ → Except String (Option ℚ)
  updatePromptPrice : ℕ → ℚ → Except String Unit

/-- The `try` body of `startABTest`: guard on missing / insufficient
variations, then either apply the best tested variation (all variants
exhausted) or start testing variant number `tested_count`.  The deferred
`scheduleTestEnd` timer is outside this decision and not modelled. -/
def startABTestBody (env : DailyEnv) (p : Prompt) : Except String (Option OptAction) :=
  match env.variations p.id with
  | .error e => .error e
  | .ok none => .ok none
  | .ok (some v) =>
    if v.titles.length ≤ 1 then .ok none
    else if v.titles.length ≤ v.tested_count then
      match jsSortByConversionDesc v.results with
      | [] => .ok none
      | best :: _ =>
        match env.updatePrompt p.id
            { title := some best.title, description := some best.description } with
        | .error e => .error e
        | .ok _ => .ok (some (.apply_best_variation p.id best))
    else
      match env.updatePrompt p.id
          { title := some (v.titles.getD v.tested_count ""),
            description := some (v.descriptions.getD v.tested_count ""),
            currently_testing := some true } with
      | .error e => .error e
      | .ok _ => .ok (some (.start_ab_test p.id v.tested_count
          (v.titles.getD v.tested_count "") (v.descriptions.getD v.tested_count "")))

/-- `startABTest`: its `catch` block converts any rejection into `null`. -/
def startABTestRun (env : DailyEnv) (p : Prompt) : Option OptAction :=
  match startABTestBody env p with
  | .ok a => a
  | .error _ => none

def improvedTitle (p : Prompt) : String := p.title ++ " - Version Optimisée"

def improvedDescription (p : Prompt) : String :=
  p.description ++ " Cette version améliorée offre des résultats plus précis et personnalisés."

/-- `improvePromptContent`: updates title/description, `catch` yields `null`. -/
def improvePromptContentRun (env : DailyEnv) (p : Prompt) : Option OptAction :=
  match env.updatePrompt p.id
      { title := some (improvedTitle p), description := some (improvedDescription p) } with
  | .ok _ => some (.improve_content p.id p.title (improvedTitle p)
      p.description (improvedDescription p))
  | .error _ => none

/-- `optimizeLongTermPrice`: fetch the elasticity estimate, adjust ±10%
clamped to the configured bounds, `catch` yields `null`.  (The source's
falsy test `!longTermData.price_elasticity` also drops an elasticity of
exactly 0; with `some 0` both branches below fail, so the result agrees.) -/
def optimizeLongTermPriceRun (cfg : EngineConfig) (env : DailyEnv) (p : Prompt) : Option OptAction :=
  match env.trends p.id with
  | .error _ => none
  | .ok none => none
  | .ok (some e) =>
    if e > 1/10 then
      match env.updatePromptPrice p.id (min (p.price * (11/10)) cfg.maxPromptPrice) with
      | .error _ => none
      | .ok _ => some (.optimize_long_term_price_up p.id p.price
          (min (p.price * (11/10)) cfg.maxPromptPrice) e)
    else if e < -(1/10) then
      match env.updatePromptPrice p.id (max (p.price * (9/10)) cfg.minPromptPrice) with
      | .error _ => none
      | .ok _ => some (.optimize_long_term_price_down p.id p.price
          (max (p.price * (9/10)) cfg.minPromptPrice) e)
    else none

/-- `promptsForTesting`: `total_views > minTestViews && !currently_testing
&& conversion_rate < highConversionThreshold`. -/
def promptsForTesting (allData : List Prompt) : List Prompt :=
  allData.filter fun p => decide (p.total_views > minTestViews ∧
    p.currently_testing = false ∧ p.conversion_rate < highConversionThreshold)

/-- `lowPerformingPrompts`: `total_views > 2 * minTestViews &&
conversion_rate < lowConversionThreshold && !currently_testing`. -/
def lowPerformingPrompts (allData : List Prompt) : List Prompt :=
  allData.filter fun p => decide (p.total_views > minTestViews * 2 ∧
    p.conversion_rate < lowConversionThreshold ∧ p.currently_testing = false)

/-- `stablePricePrompts`: `total_views > 3 * minTestViews &&
!price_changed_recently && !currently_testing`. -/
def stablePricePrompts (allData : List Prompt) : List Prompt :=
  allData.filter fun p => decide (p.total_views > minTestViews * 3 ∧
    p.price_changed_recently = false ∧ p.currently_testing = false)

/-- The `try` body of `dailyOptimization`: at most 2 A/B-test advances, at
most 3 content improvements, then the long-term price pass over all stable
prompts.  Every awaited call inside the source's `try` (`startABTest`,
`improvePromptContent`, `optimizeLongTermPrice`) carries its own `catch`
returning `null`, so the body itself never rejects. -/
def dailyBody (cfg : EngineConfig) (env : DailyEnv) (allData : List Prompt) :
    Except String (List OptAction) :=
  .ok ((((promptsForTesting allData).take 2).filterMap (startABTestRun env)) ++
       (((lowPerformingPrompts allData).take 3).filterMap (improvePromptContentRun env)) ++
       ((stablePricePrompts allData).filterMap (optimizeLongTermPriceRun cfg env)))

/-- The error notification sent by `dailyOptimization`'s `catch` block. -/
def dailyErrorNotif (e : String) : Notif :=
  { ntype := "error", subject := "Erreur d’optimisation quotidienne",
    message := "Une erreur est survenue lors de l’optimisation quotidienne: " ++ e }

/-- `dailyOptimization(allData)`: the `catch` block sends an error
notification and returns `[]`. -/
def dailyOptimization (cfg : EngineConfig) (env : DailyEnv) (allData : List Prompt) :
    List OptAction × List Notif :=
  match dailyBody cfg env allData with
  | .ok as => (as, [])
  | .error e => ([], [dailyErrorNotif e])

/-- The action list returned by a daily run. -/
def dailyActions (cfg : EngineConfig) (env : DailyEnv) (allData : List Prompt) : List OptAction :=
  (dailyOptimization cfg env allData).1

/-! ## Weekly renovation (`OptimizationEngine.weeklyRenovation`) -/

/-- The per-prompt performance object (`api.getPromptPerformance`). -/
structure Perf where
  views_last_7_days : ℚ
  conversion_rate : ℚ
deriving DecidableEq, Repr

/-- The external collaborators awaited inside `weeklyRenovation`. -/
structure WeeklyEnv where
  getPrompts : Except String (List Prompt)
  getPromptPerformance : ℕ → Except String Perf
  updatePrompt : ℕ → UpdateFields → Except String Unit

def refreshedTitle (p : Prompt) : String := p.title ++ " [2025 Edition]"

def refreshedDescription (p : Prompt) : String :=
  p.description ++ " Mis à jour pour 2025 avec les dernières techniques et optimisations."

/-- `refreshPromptContent`: update title/description/refresh date, `catch`
yields `null`.  `now` is `Date.now()` in epoch milliseconds. -/
def refreshPromptContentRun (env : WeeklyEnv) (now : ℚ) (p : Prompt) : Option OptAction :=
  match env.updatePrompt p.id
      { title := some (refreshedTitle p), description := some (refreshedDescription p),
        last_refresh_date := some now } with
  | .ok _ => some (.refresh_content p.id p.title (refreshedTitle p)
      p.description (refreshedDescription p))
  | .error _ => none

/-- `removePromotion` (the engine's weekly variant): recompute the normal
price from the stored percentage, `catch` yields `null`. -/
def removePromotionRun (env : WeeklyEnv) (p : Prompt) : Option OptAction :=
  let normalPrice : ℚ := (jsRound (p.price / (1 - p.promotion_percentage / 100)) : ℤ)
  match env.updatePrompt p.id
      { price := some normalPrice, on_promotion := some false,
        promotion_percentage := some 0 } with
  | .ok _ => some (.remove_promotion p.id p.price normalPrice p.promotion_percentage)
  | .error _ => none

/-- `applyPromotion` (the engine's weekly variant): a fixed 15% discount
for 7 days, `catch` yields `null`. -/
def applyPromotionRun (env : WeeklyEnv) (now : ℚ) (p : Prompt) : Option OptAction :=
  let promotionPercentage : ℚ := 15
  let promotionPrice : ℚ := (jsRound (p.price * (1 - promotionPercentage / 100)) : ℤ)
  match env.updatePrompt p.id
      { price := some promotionPrice, on_promotion := some true,
        promotion_percentage := some promotionPercentage,
        promotion_end_date := some (now + 7 * 24 * 60 * 60 * 1000) } with
  | .ok _ => some (.apply_promotion p.id p.price promotionPrice promotionPercentage)
  | .error _ => none

/-- The `try` body of `weeklyRenovation`: fetch all prompts (this await has
no inner `catch` and can reject the whole body), attach performances (each
fetch individually guarded, failure recorded as `none`), refresh the first
2 prompts older than 30 days, remove promotions from up to 3 high-demand
prompts, apply promotions to up to 3 low-demand ones. -/
def weeklyBody (env : WeeklyEnv) (now : ℚ) : Except String (List OptAction) := do
  let allPrompts ← env.getPrompts
  let promptsWithPerformance := allPrompts.map fun p =>
    match env.getPromptPerformance p.id with
    | .ok perf => (p, some perf)
    | .error _ => (p, none)
  let oldPrompts := (promptsWithPerformance.filter fun pp =>
    match pp.1.creation_date with
    | some d => decide ((d : ℚ) < now - 30 * 24 * 60 * 60 * 1000)
    | none => false).take 2
  let a1 := oldPrompts.filterMap fun pp => refreshPromptContentRun env now pp.1
  let highDemandPrompts := (promptsWithPerformance.filter fun pp =>
    match pp.2 with
    | some perf => decide (perf.views_last_7_days > 500 ∧
        perf.conversion_rate > highConversionThreshold)
    | none => false).take 3
  let a2 := highDemandPrompts.filterMap fun pp =>
    if pp.1.on_promotion then removePromotionRun env pp.1 else none
  let lowDemandPrompts := (promptsWithPerformance.filter fun pp =>
    match pp.2 with
    | some perf => decide (perf.views_last_7_days > 100 ∧ perf.views_last_7_days < 300 ∧
        perf.conversion_rate < lowConversionThreshold ∧ pp.1.on_promotion = false)
    | none => false).take 3
  let a3 := lowDemandPrompts.filterMap fun pp => applyPromotionRun env now pp.1
  pure (a1 ++ a2 ++ a3)

/-- The report notification sent at the end of a successful weekly run. -/
def weeklyReportNotif (n : ℕ) : Notif :=
  { ntype := "report", subject := "Rapport de rénovation hebdomadaire",
    message := "La rénovation hebdomadaire a effectué " ++ toString n ++
      " actions. Voir le détail ci-joint." }

/-- The error notification sent by `weeklyRenovation`'s `catch` block. -/
def weeklyErrorNotif (e : String) : Notif :=
  { ntype := "error", subject := "Erreur de rénovation hebdomadaire",
    message := "Une erreur est survenue lors de la rénovation hebdomadaire: " ++ e }

/-- `weeklyRenovation()`: report notification on success, error
notification and `[]` from the `catch` block on failure. -/
def weeklyRenovation (env : WeeklyEnv) (now : ℚ) : List OptAction × List Notif :=
  match weeklyBody env now with
  | .ok as => (as, [weeklyReportNotif as.length])
  | .error e => ([], [weeklyErrorNotif e])

/-! ## Promotion service (`PromotionService`) -/

/-- `promotionParams.maxPromotionDuration = 3 * 24` hours. -/
def maxPromotionDuration : ℚ := 3 * 24

/-- Apply an `UpdateFields` payload to a prompt, as the remote catalog
would (the API echoes the updated prompt back). -/
def applyFields (p : Prompt) (f : UpdateFields) : Prompt :=
  { p with
    title := f.title.getD p.title,
    description := f.description.getD p.description,
    currently_testing := f.currently_testing.getD p.currently_testing,
    price := f.price.getD p.price,
    on_promotion := f.on_promotion.getD p.on_promotion,
    promotion_percentage := f.promotion_percentage.getD p.promotion_percentage }

/-- `PromotionService.applyPromotionToPrompt(promptId, discountPercentage,
durationHours)`, as a function of the prompt fetched by `api.getPrompt`:
no-op when already on promotion, otherwise clamp the discount to 50% and
the duration to `maxPromotionDuration`, round the discounted price, and
issue one `api.updatePrompt` mutation.  `now` is `Date.now()` in epoch
milliseconds.  Returns the prompt handed back to the caller together with
the issued mutation payload (if any). -/
def applyPromotionToPrompt (p : Prompt) (discountPercentage durationHours : ℚ)
    (now : ℚ) : Prompt × Option UpdateFields :=
  if p.on_promotion then (p, none)
  else
    let actualDiscount := min discountPercentage 50
    let promotionPrice : ℚ := (jsRound (p.price * (1 - actualDiscount / 100)) : ℤ)
    let actualDuration := min durationHours maxPromotionDuration
    let endDate : ℚ := now + actualDuration * 60 * 60 * 1000
    let fields : UpdateFields :=
      { price := some promotionPrice, on_promotion := some true,
        promotion_percentage := some actualDiscount, promotion_end_date := some endDate }
    (applyFields p fields, some fields)

/-- `PromotionService.removePromotionFromPrompt(promptId)`, as a function
of the fetched prompt: no-op when not on promotion, otherwise invert the
stored discount with a rounding division and issue one mutation.  (The
source also nulls `promotion_end_date`; an absent `Option` field stands
for that `null`.) -/
def removePromotionFromPrompt (p : Prompt) : Prompt × Option UpdateFields :=
  if p.on_promotion = false then (p, none)
  else
    let normalPrice : ℚ := (jsRound (p.price / (1 - p.promotion_percentage / 100)) : ℤ)
    let fields : UpdateFields :=
      { price := some normalPrice, on_promotion := some false,
        promotion_percentage := some 0 }
    (applyFields p fields, some fields)

/-! ### `PromotionService.getNextOccurrence` -/

/-- A calendar instant at the granularity `getNextOccurrence` observes:
a day number (with day 0 a Sunday, so that the weekday is `dayNumber % 7`,
matching `Date.getDay()`) and an hour of day. -/
structure SimpleTime where
  dayNumber : ℕ
  hour : ℕ
deriving DecidableEq, Repr

/-- The `days` array of `getNextOccurrence` / `findLowActivityPeriods`. -/
def weekdayNames : List String :=
  ["Sunday", "Monday", "Tuesday", "Wednesday", "Thursday", "Friday", "Saturday"]

/-- JavaScript `Array.indexOf`, as an `Option` (`none` for `-1`). -/
def jsIndexOf (x : String) : List String → Option ℕ
  | [] => none
  | y :: ys => if y = x then some 0 else (jsIndexOf x ys).map (· + 1)

/-- `getNextOccurrence(day, hour)`: invalid day name yields tomorrow at
`hour`; otherwise `daysToAdd = dayIndex - today.getDay()`, bumped by 7 when
`≤ 0`.  The source's follow-up guard `daysToAdd === 0 && hours >= hour`
is kept verbatim below although it is unreachable (after the first bump
`daysToAdd` is in 1..7). -/
def getNextOccurrence (day : String) (hour : ℕ) (today : SimpleTime) : SimpleTime :=
  match jsIndexOf day weekdayNames with
  | none => { dayNumber := today.dayNumber + 1, hour := hour }
  | some dayIndex =>
    let daysToAdd : ℤ := (dayIndex : ℤ) - (today.dayNumber % 7 : ℕ)
    let daysToAdd := if daysToAdd ≤ 0 then daysToAdd + 7 else daysToAdd
    let daysToAdd := if daysToAdd = 0 ∧ hour ≤ today.hour then 7 else daysToAdd
    { dayNumber := today.dayNumber + daysToAdd.toNat, hour := hour }

/-- The specification's description of `nextOccurrence`: the next strictly
future instant whose weekday is `wd` and whose hour is `hour` — today at
`hour` when today has that weekday and the hour is still ahead, otherwise
the next (1..7 days ahead) day with that weekday. -/
def specNextOccurrence (wd hour : ℕ) (now : SimpleTime) : SimpleTime :=
  if now.dayNumber % 7 = wd ∧ now.hour < hour then
    { dayNumber := now.dayNumber, hour := hour }
  else
    { dayNumber := now.dayNumber +
        (if ((wd + 7) - now.dayNumber % 7) % 7 = 0 then 7
         else ((wd + 7) - now.dayNumber % 7) % 7),
      hour := hour }

/-! ### `PromotionService.findLowActivityPeriods` -/

/-- One hourly analytics data point.  `timestamp` counts hours since a
Sunday-midnight epoch, so `new Date(ts).getDay()` is `timestamp / 24 % 7`
and `getHours()` is `timestamp % 24`.  `visits` is optional
(`dataPoint.visits || 0`). -/
structure DataPoint where
  timestamp : ℕ
  visits : Option ℚ := none
deriving DecidableEq, Repr

def dayOf (ts : ℕ) : ℕ := ts / 24 % 7

def hourOf (ts : ℕ) : ℕ := ts % 24

/-- One entry of `activityByHourDay` / the returned periods.  `day` is the
weekday index (the source stores the name `days[day]`, a bijective
renaming).  `avgVisits` is 0 until the averaging pass fills it in. -/
structure Period where
  day : ℕ
  hour : ℕ
  count : ℕ
  visits : ℚ
  avgVisits : ℚ := 0
deriving DecidableEq, Repr

/-- One iteration of the accumulation loop: upsert into the
insertion-ordered, key-unique bucket map (`activityByHourDay[key]`),
bumping `count` and `visits`. -/
def addPoint (acc : List Period) (d h : ℕ) (v : ℚ) : List Period :=
  match acc with
  | [] => [{ day := d, hour := h, count := 1, visits := v }]
  | b :: bs =>
    if b.day = d ∧ b.hour = h then
      { b with count := b.count + 1, visits := b.visits + v } :: bs
    else b :: addPoint bs d h v

/-- The bucket map after the accumulation loop (`Object.values` order =
insertion order, as for a JavaScript object with string keys). -/
def groupedPeriods (analytics : List DataPoint) : List Period :=
  analytics.foldl
    (fun acc dp => addPoint acc (dayOf dp.timestamp) (hourOf dp.timestamp) (dp.visits.getD 0))
    []

/-- Ascending order by `avgVisits`, the comparator
`(a, b) => a.avgVisits - b.avgVisits`. -/
def leAvg (a b : Period) : Prop := a.avgVisits ≤ b.avgVisits

instance : DecidableRel leAvg :=
  fun a b => inferInstanceAs (Decidable (a.avgVisits ≤ b.avgVisits))

instance : IsTotal Period leAvg := ⟨fun a b => le_total a.avgVisits b.avgVisits⟩

instance : IsTrans Period leAvg := ⟨fun _ _ _ h h2 => le_trans h h2⟩

/-- The averaging pass: `entry.avgVisits = entry.visits / entry.count`. -/
def periodsWithAvg (analytics : List DataPoint) : List Period :=
  (groupedPeriods analytics).map fun b => { b with avgVisits := b.visits / (b.count : ℚ) }

/-- The night-hours filter: `entry.hour >= 7 && entry.hour <= 23`. -/
def filteredPeriods (analytics : List DataPoint) : List Period :=
  (periodsWithAvg analytics).filter fun b => decide (7 ≤ b.hour ∧ b.hour ≤ 23)

/-- The ascending sort by `avgVisits`. -/
def sortedPeriods (analytics : List DataPoint) : List Period :=
  (filteredPeriods analytics).insertionSort leAvg

/-- `findLowActivityPeriods(analytics)`: bucket by (weekday, hour), average
visits per bucket, drop night hours (`hour >= 7 && hour <= 23`), sort by
average ascending, take the first 5. -/
def findLowActivityPeriods (analytics : List DataPoint) : List Period :=
  (sortedPeriods analytics).take 5

/-! ## API client (`SnackPromptAPI.updatePromptPrice`) -/

/-- The price actually written by `SnackPromptAPI.updatePromptPrice`:
`Math.min(Math.max(Math.round(price), minPrice), maxPrice)` with the
client's own bounds (`MIN_PROMPT_PRICE || 10`, `MAX_PROMPT_PRICE || 150`). -/
def updatePromptPriceSent (minPrice maxPrice : ℚ) (price : ℚ) : ℚ :=
  min (max (jsRound price : ℤ) minPrice) maxPrice

/-- The API client's default bounds (note they differ from the engine's
default `minPromptPrice`: 10 here, 25 there). -/
def apiDefaultMinPrice : ℚ := 10

def apiDefaultMaxPrice : ℚ := 150

/-! ## Helper lemmas: hourly loop -/

lemma hourlyDecision_testing (cfg : EngineConfig) (p : Prompt)
    (h : p.currently_testing = true) : hourlyDecision cfg p = .skip := by
  simp [hourlyDecision, h]

lemma hourlyLoop_filter_testing (cfg : EngineConfig) (env : ℕ → ℚ → Except String Unit) :
    ∀ stats : List Prompt,
      hourlyLoop cfg env stats =
        hourlyLoop cfg env (stats.filter fun p => !p.currently_testing)
  | [] => rfl
  | p :: ps => by
    by_cases h : p.currently_testing
    · have hf : (p :: ps).filter (fun q => !q.currently_testing) =
          ps.filter (fun q => !q.currently_testing) := by simp [h]
      rw [hf, show hourlyLoop cfg env (p :: ps) = hourlyLoop cfg env ps by
        simp only [hourlyLoop, hourlyDecision_testing cfg p h]]
      exact hourlyLoop_filter_testing cfg env ps
    · have hf : (p :: ps).filter (fun q => !q.currently_testing) =
          p :: ps.filter (fun q => !q.currently_testing) := by simp [h]
      rw [hf]
      simp only [hourlyLoop, hourlyLoop_filter_testing cfg env ps]

lemma hourlyDecision_increase {cfg : EngineConfig} {p : Prompt} {np : ℚ}
    (h : hourlyDecision cfg p = .increase np) :
    np = min (p.price * maxPriceAdjustment) cfg.maxPromptPrice ∧ p.price + 1 < np := by
  unfold hourlyDecision at h
  split_ifs at h <;> simp_all
  exact h ▸ lt_min_iff.mpr (by tauto)

lemma hourlyDecision_decrease {cfg : EngineConfig} {p : Prompt} {np : ℚ}
    (h : hourlyDecision cfg p = .decrease np) :
    np = max (p.price * minPriceAdjustment) cfg.minPromptPrice ∧ np < p.price - 1 := by
  unfold hourlyDecision at h
  split_ifs at h <;> simp_all
  exact h ▸ max_lt_iff.mpr (by tauto)

/-- Unfold one step of `hourlyLoop`. -/
lemma hourlyLoop_cons (cfg : EngineConfig) (env : ℕ → ℚ → Except String Unit)
    (p : Prompt) (ps : List Prompt) :
    hourlyLoop cfg env (p :: ps) =
      match hourlyDecision cfg p with
      | .skip => hourlyLoop cfg env ps
      | .increase np =>
        match env p.id np with
        | .error e => ([(p.id, np)], .error e)
        | .ok _ =>
          ((p.id, np) :: (hourlyLoop cfg env ps).1,
           (hourlyLoop cfg env ps).2.map
             (fun rs => ⟨p.id, p.price, np, "increase_high_conversion"⟩ :: rs))
      | .decrease np =>
        match env p.id np with
        | .error e => ([(p.id, np)], .error e)
        | .ok _ =>
          ((p.id, np) :: (hourlyLoop cfg env ps).1,
           (hourlyLoop cfg env ps).2.map
             (fun rs => ⟨p.id, p.price, np, "decrease_low_conversion"⟩ :: rs)) := rfl

/-- Every record of a completed hourly loop has a clamped in-bounds new
price, strictly higher on the increase reason and strictly lower on the
decrease reason — provided the incoming prices are themselves in bounds. -/
lemma hourlyLoop_records_sound (cfg : EngineConfig) (env : ℕ → ℚ → Except String Unit)
    (hmin : 0 ≤ cfg.minPromptPrice) :
    ∀ (stats : List Prompt) (recs : List UpdateRec),
      (∀ p ∈ stats, cfg.minPromptPrice ≤ p.price ∧ p.price ≤ cfg.maxPromptPrice) →
      (hourlyLoop cfg env stats).2 = .ok recs →
      ∀ r ∈ recs,
        (cfg.minPromptPrice ≤ r.newPrice ∧ r.newPrice ≤ cfg.maxPromptPrice) ∧
        (r.reason = "increase_high_conversion" → r.oldPrice < r.newPrice) ∧
        (r.reason = "decrease_low_conversion" → r.newPrice < r.oldPrice) := by
  intro stats
  induction stats with
  | nil =>
    intro recs _ hok r hr
    simp only [hourlyLoop] at hok
    cases hok
    simp at hr
  | cons p ps ih =>
    intro recs hbounds hok r hr
    have hp := hbounds p (by simp)
    have hps : ∀ q ∈ ps, cfg.minPromptPrice ≤ q.price ∧ q.price ≤ cfg.maxPromptPrice :=
      fun q hq => hbounds q (by simp [hq])
    rw [hourlyLoop_cons] at hok
    split at hok
    · exact ih recs hps hok r hr
    · rename_i np hdec
      obtain ⟨hnp, hgt⟩ := hourlyDecision_increase hdec
      split at hok
      · simp at hok
      · simp only at hok
        cases hrest : (hourlyLoop cfg env ps).2 with
        | error e => rw [hrest] at hok; simp [Except.map] at hok
        | ok rs =>
          rw [hrest] at hok
          simp only [Except.map] at hok
          cases hok
          rcases List.mem_cons.mp hr with hhead | htail
          · subst hhead
            refine ⟨⟨?_, ?_⟩, fun _ => ?_, fun habs => ?_⟩
            · rw [hnp]
              exact le_min (le_trans hp.1 (le_mul_of_one_le_right
                (le_trans hmin hp.1) (by norm_num [maxPriceAdjustment])))
                (le_trans hp.1 hp.2)
            · rw [hnp]; exact min_le_right _ _
            · simp only; linarith
            · simp at habs
          · exact ih rs hps hrest r htail
    · rename_i np hdec
      obtain ⟨hnp, hlt⟩ := hourlyDecision_decrease hdec
      split at hok
      · simp at hok
      · simp only at hok
        cases hrest : (hourlyLoop cfg env ps).2 with
        | error e => rw [hrest] at hok; simp [Except.map] at hok
        | ok rs =>
          rw [hrest] at hok
          simp only [Except.map] at hok
          cases hok
          rcases List.mem_cons.mp hr with hhead | htail
          · subst hhead
            refine ⟨⟨?_, ?_⟩, fun habs => ?_, fun _ => ?_⟩
            · rw [hnp]; exact le_max_right _ _
            · rw [hnp]
              exact max_le (le_trans (mul_le_of_le_one_right
                (le_trans hmin hp.1) (by norm_num [minPriceAdjustment])) hp.2)
                (le_trans hp.1 hp.2)
            · simp at habs
            · simp only; linarith
          · exact ih rs hps hrest r htail

/-! ## Claim C1 -/

/-- **C1.** For every listing snapshot with `currently_testing == true` the
pricing policy emits no price change: the whole hourly run (issued price
mutations, returned records, notifications) is unchanged when such
listings are removed from the input — they are skipped entirely — and the
daily long-term price pass (`stablePricePrompts`) never selects such a
listing. -/
theorem c1_experiment_running_never_priced
    (cfg : EngineConfig) (env : ℕ → ℚ → Except String Unit)
    (stats allData : List Prompt) :
    hourlyOptimization cfg env stats =
      hourlyOptimization cfg env (stats.filter fun p => !p.currently_testing) ∧
    ∀ p ∈ stablePricePrompts allData, p.currently_testing = false := by
  constructor
  · unfold hourlyOptimization
    rw [← hourlyLoop_filter_testing]
  · intro p hp
    simp only [stablePricePrompts, List.mem_filter, decide_eq_true_eq] at hp
    exact hp.2.2.2

/-- A stable (long-term pass) candidate prompt used as concrete input. -/
def promptStable : Prompt :=
  { id := 5, title := "t", description := "d", price := 40, conversion_rate := 1/50,
    views_last_hour := 10, total_views := 400, currently_testing := false,
    price_changed_recently := false }

theorem c1_witness :
    promptStable ∈ stablePricePrompts [promptStable] ∧
    promptStable.currently_testing = false := by
  have hmem : promptStable ∈ stablePricePrompts [promptStable] := by
    norm_num [stablePricePrompts, promptStable, minTestViews]
  exact ⟨hmem,
    (c1_experiment_running_never_priced defaultEngineConfig okPriceEnv [] [promptStable]).2
      promptStable hmem⟩

/-! ## Claim C2 -/

/-- A prompt whose price (200) lies above the configured `maxPromptPrice`
(150): high views, low conversion, so the hourly decrease branch fires. -/
def promptOverMax : Prompt :=
  { id := 9, title := "t", description := "d", price := 200, conversion_rate := 1/50,
    views_last_hour := 35, total_views := 0, currently_testing := false,
    price_changed_recently := false }

/-- **C2, counterexample.** The claim as stated — every applied hourly
price change lands in `[minPrice, maxPrice]` — is false: with the default
bounds (25/150) a listing priced at 200 with 35 views/h and 2% conversion
gets a *decrease* to `max(200 * 0.95, 25) = 190`, which the engine records
as the new price although `190 > maxPrice = 150`. -/
theorem c2_counterexample :
    ¬ ∀ r ∈ hourlyRecords defaultEngineConfig okPriceEnv [promptOverMax],
        (r.reason = "increase_high_conversion" →
          defaultEngineConfig.minPromptPrice ≤ r.newPrice ∧
          r.newPrice ≤ defaultEngineConfig.maxPromptPrice ∧ r.oldPrice < r.newPrice) ∧
        (r.reason = "decrease_low_conversion" →
          defaultEngineConfig.minPromptPrice ≤ r.newPrice ∧
          r.newPrice ≤ defaultEngineConfig.maxPromptPrice ∧ r.newPrice < r.oldPrice) := by
  intro hall
  have hrec : hourlyRecords defaultEngineConfig okPriceEnv [promptOverMax] =
      [{ id := 9, oldPrice := 200, newPrice := 190, reason := "decrease_low_conversion" }] := by
    norm_num [hourlyRecords, hourlyOptimization, hourlyLoop, hourlyDecision, okPriceEnv,
      promptOverMax, defaultEngineConfig, highConversionThreshold, lowConversionThreshold,
      highViewThreshold, minPriceAdjustment, maxPriceAdjustment, Except.map, min_def, max_def]
  have h2 := (hall _ (hrec ▸ List.mem_singleton_self _)).2 rfl
  norm_num [defaultEngineConfig] at h2

/-- **C2, amended.** For every price change applied by
`hourlyOptimization` *on listings whose old price already lies within the
configured bounds* (and with a nonnegative `minPrice`): an increase
satisfies `minPrice ≤ newPrice ≤ maxPrice` and `newPrice > oldPrice`, a
decrease satisfies `minPrice ≤ newPrice ≤ maxPrice` and
`newPrice < oldPrice`. -/
theorem c2_price_change_bounds
    (cfg : EngineConfig) (env : ℕ → ℚ → Except String Unit) (stats : List Prompt)
    (hmin : 0 ≤ cfg.minPromptPrice)
    (hbounds : ∀ p ∈ stats, cfg.minPromptPrice ≤ p.price ∧ p.price ≤ cfg.maxPromptPrice) :
    ∀ r ∈ hourlyRecords cfg env stats,
      (r.reason = "increase_high_conversion" →
        cfg.minPromptPrice ≤ r.newPrice ∧ r.newPrice ≤ cfg.maxPromptPrice ∧
        r.oldPrice < r.newPrice) ∧
      (r.reason = "decrease_low_conversion" →
        cfg.minPromptPrice ≤ r.newPrice ∧ r.newPrice ≤ cfg.maxPromptPrice ∧
        r.newPrice < r.oldPrice) := by
  intro r hr
  unfold hourlyRecords hourlyOptimization at hr
  rcases hl : hourlyLoop cfg env stats with ⟨calls, ex⟩
  rw [hl] at hr
  cases ex with
  | error e => simp at hr
  | ok recs =>
    simp only at hr
    have := hourlyLoop_records_sound cfg env hmin stats recs hbounds
      (by rw [hl]) r hr
    exact ⟨fun h => ⟨this.1.1, this.1.2, this.2.1 h⟩,
           fun h => ⟨this.1.1, this.1.2, this.2.2 h⟩⟩

/-- A prompt matching the spec's increase scenario (price 100, conversion
15%, 25 views/h → increase to 105). -/
def promptScenario : Prompt :=
  { id := 7, title := "t", description := "d", price := 100, conversion_rate := 3/20,
    views_last_hour := 25, total_views := 0, currently_testing := false,
    price_changed_recently := false }

/-- The record `hourlyOptimization` produces for `promptScenario`. -/
def recScenario : UpdateRec :=
  { id := 7, oldPrice := 100, newPrice := 105, reason := "increase_high_conversion" }

theorem c2_witness :
    defaultEngineConfig.minPromptPrice ≤ recScenario.newPrice ∧
    recScenario.newPrice ≤ defaultEngineConfig.maxPromptPrice ∧
    recScenario.oldPrice < recScenario.newPrice := by
  have hrec : hourlyRecords defaultEngineConfig okPriceEnv [promptScenario] = [recScenario] := by
    norm_num [hourlyRecords, hourlyOptimization, hourlyLoop, hourlyDecision, okPriceEnv,
      promptScenario, recScenario, defaultEngineConfig, highConversionThreshold,
      lowConversionThreshold, highViewThreshold, minPriceAdjustment, maxPriceAdjustment,
      Except.map, min_def, max_def]
  exact (c2_price_change_bounds defaultEngineConfig okPriceEnv [promptScenario]
    (by norm_num [defaultEngineConfig])
    (by intro p hp
        rw [List.mem_singleton] at hp
        subst hp
        norm_num [promptScenario, defaultEngineConfig])
    recScenario (hrec ▸ List.mem_singleton_self _)).1 rfl

/-! ## Claims C6 and C7 -/

lemma startABTestBody_shape {env : DailyEnv} {p : Prompt} {a : OptAction}
    (h : startABTestBody env p = .ok (some a)) :
    isExperimentAction a = true ∧ isImproveAction a = false := by
  unfold startABTestBody at h
  repeat' split at h
  all_goals cases h
  all_goals simp [isExperimentAction, isImproveAction]

lemma startABTestRun_shape {env : DailyEnv} {p : Prompt} {a : OptAction}
    (h : startABTestRun env p = some a) :
    isExperimentAction a = true ∧ isImproveAction a = false := by
  unfold startABTestRun at h
  split at h
  · subst h
    exact startABTestBody_shape (by assumption)
  · cases h

lemma improvePromptContentRun_shape {env : DailyEnv} {p : Prompt} {a : OptAction}
    (h : improvePromptContentRun env p = some a) :
    isExperimentAction a = false ∧ isImproveAction a = true := by
  unfold improvePromptContentRun at h
  repeat' split at h
  all_goals cases h
  all_goals simp [isExperimentAction, isImproveAction]

lemma optimizeLongTermPriceRun_shape {cfg : EngineConfig} {env : DailyEnv} {p : Prompt}
    {a : OptAction} (h : optimizeLongTermPriceRun cfg env p = some a) :
    isExperimentAction a = false ∧ isImproveAction a = false := by
  unfold optimizeLongTermPriceRun at h
  repeat' split at h
  all_goals cases h
  all_goals simp [isExperimentAction, isImproveAction]

/-- **C7.** A single daily run emits at most 2 actions of type
`start_ab_test`/`apply_best_variation` and at most 3 of type
`improve_content`, whatever the data and however the collaborators
behave. -/
theorem c7_daily_batch_caps (cfg : EngineConfig) (env : DailyEnv) (allData : List Prompt) :
    (dailyActions cfg env allData).countP isExperimentAction ≤ 2 ∧
    (dailyActions cfg env allData).countP isImproveAction ≤ 3 := by
  unfold dailyActions dailyOptimization dailyBody
  simp only [List.countP_append]
  constructor
  · have h1 : (((promptsForTesting allData).take 2).filterMap (startABTestRun env)).countP
        isExperimentAction ≤ 2 :=
      le_trans (List.countP_le_length _)
        (le_trans (List.length_filterMap_le _ _) (by rw [List.length_take]; omega))
    have h2 : (((lowPerformingPrompts allData).take 3).filterMap
        (improvePromptContentRun env)).countP isExperimentAction = 0 := by
      rw [List.countP_eq_zero]
      intro a ha
      obtain ⟨p, _, hp⟩ := List.mem_filterMap.mp ha
      simp [(improvePromptContentRun_shape hp).1]
    have h3 : ((stablePricePrompts allData).filterMap
        (optimizeLongTermPriceRun cfg env)).countP isExperimentAction = 0 := by
      rw [List.countP_eq_zero]
      intro a ha
      obtain ⟨p, _, hp⟩ := List.mem_filterMap.mp ha
      simp [(optimizeLongTermPriceRun_shape hp).1]
    omega
  · have h1 : (((promptsForTesting allData).take 2).filterMap (startABTestRun env)).countP
        isImproveAction = 0 := by
      rw [List.countP_eq_zero]
      intro a ha
      obtain ⟨p, _, hp⟩ := List.mem_filterMap.mp ha
      simp [(startABTestRun_shape hp).2]
    have h2 : (((lowPerformingPrompts allData).take 3).filterMap
        (improvePromptContentRun env)).countP isImproveAction ≤ 3 :=
      le_trans (List.countP_le_length _)
        (le_trans (List.length_filterMap_le _ _) (by rw [List.length_take]; omega))
    have h3 : ((stablePricePrompts allData).filterMap
        (optimizeLongTermPriceRun cfg env)).countP isImproveAction = 0 := by
      rw [List.countP_eq_zero]
      intro a ha
      obtain ⟨p, _, hp⟩ := List.mem_filterMap.mp ha
      simp [(optimizeLongTermPriceRun_shape hp).2]
    omega

/-- **C6, amended.** An exception that reaches a cadence boundary — one
not absorbed by a per-item handler — is caught there: the cadence sends
an error notification and returns an empty action list instead of
propagating.  (Per-item failures inside the daily and weekly runs are
absorbed by inner handlers: the item is skipped, the batch continues —
see `c6_counterexample`.) -/
theorem c6_cadence_error_boundary (cfg : EngineConfig)
    (envH : ℕ → ℚ → Except String Unit) (envD : DailyEnv) (envW : WeeklyEnv)
    (stats allData : List Prompt) (now : ℚ) :
    (∀ e, (hourlyLoop cfg envH stats).2 = .error e →
      hourlyOptimization cfg envH stats =
        ((hourlyLoop cfg envH stats).1, [], [hourlyErrorNotif e])) ∧
    (∀ e, dailyBody cfg envD allData = .error e →
      dailyOptimization cfg envD allData = ([], [dailyErrorNotif e])) ∧
    (∀ e, weeklyBody envW now = .error e →
      weeklyRenovation envW now = ([], [weeklyErrorNotif e])) := by
  refine ⟨fun e he => ?_, fun e he => ?_, fun e he => ?_⟩
  · unfold hourlyOptimization
    rcases hl : hourlyLoop cfg envH stats with ⟨calls, ex⟩
    rw [hl] at he
    simp only at he
    subst he
    rfl
  · unfold dailyOptimization
    rw [he]
  · unfold weeklyRenovation
    rw [he]

/-- An always-failing `api.updatePromptPrice` environment. -/
def failPriceEnv : ℕ → ℚ → Except String Unit := fun _ _ => .error "fail"

/-- A daily environment whose `api.updatePrompt` rejects for prompt 1 only
and whose stored variations are `null`. -/
def dailyEnvC6 : DailyEnv :=
  { variations := fun _ => .ok none,
    updatePrompt := fun i _ => if i = 1 then .error "boom" else .ok (),
    trends := fun _ => .ok none,
    updatePromptPrice := fun _ _ => .ok () }

/-- A weekly environment with no prompts. -/
def weeklyEnvOk : WeeklyEnv :=
  { getPrompts := .ok [],
    getPromptPerformance := fun _ => .error "none",
    updatePrompt := fun _ _ => .ok () }

theorem c6_witness :
    hourlyOptimization defaultEngineConfig failPriceEnv [promptScenario] =
      ((hourlyLoop defaultEngineConfig failPriceEnv [promptScenario]).1, [],
       [hourlyErrorNotif "fail"]) := by
  have herr : (hourlyLoop defaultEngineConfig failPriceEnv [promptScenario]).2 =
      .error "fail" := by
    norm_num [hourlyLoop, hourlyDecision, failPriceEnv, promptScenario, defaultEngineConfig,
      highConversionThreshold, highViewThreshold, maxPriceAdjustment, min_def]
  exact (c6_cadence_error_boundary defaultEngineConfig failPriceEnv dailyEnvC6 weeklyEnvOk
    [promptScenario] [] 0).1 "fail" herr

/-- Two low-performing prompts: enough views, low conversion, not testing. -/
def promptC6a : Prompt :=
  { id := 1, title := "a", description := "da", price := 30, conversion_rate := 1/100,
    views_last_hour := 0, total_views := 250, currently_testing := false,
    price_changed_recently := true }

def promptC6b : Prompt :=
  { id := 2, title := "b", description := "db", price := 30, conversion_rate := 1/100,
    views_last_hour := 0, total_views := 250, currently_testing := false,
    price_changed_recently := true }

/-- **C6, counterexample.** An exception *is* thrown inside this daily run
(`api.updatePrompt` rejects with "boom" for prompt 1, which the run visits
in its content-improvement slice), yet the cadence neither returns an
empty action list nor sends an error notification: prompt 1 is skipped
and prompt 2's improvement is returned. -/
theorem c6_counterexample :
    dailyEnvC6.updatePrompt 1
      { title := some (improvedTitle promptC6a),
        description := some (improvedDescription promptC6a) } = .error "boom" ∧
    promptC6a ∈ (lowPerformingPrompts [promptC6a, promptC6b]).take 3 ∧
    (dailyOptimization defaultEngineConfig dailyEnvC6 [promptC6a, promptC6b]).1 =
      [.improve_content 2 "b" (improvedTitle promptC6b) "db" (improvedDescription promptC6b)] ∧
    (dailyOptimization defaultEngineConfig dailyEnvC6 [promptC6a, promptC6b]).2 = [] := by
  refine ⟨rfl, ?_, ?_, rfl⟩
  · norm_num [lowPerformingPrompts, promptC6a, promptC6b, minTestViews,
      lowConversionThreshold]
  · norm_num [dailyOptimization, dailyBody, promptsForTesting, lowPerformingPrompts,
      stablePricePrompts, startABTestRun, startABTestBody, improvePromptContentRun,
      optimizeLongTermPriceRun, dailyEnvC6, promptC6a, promptC6b, minTestViews,
      highConversionThreshold, lowConversionThreshold, improvedTitle, improvedDescription,
      List.filterMap_cons, List.filterMap_nil]

/-! ## Claim C4: winner selection -/

/-- The first element of maximal `conversion` in `x :: xs` (ties go to the
earlier element). -/
def firstMaxConv : TestResult → List TestResult → TestResult
  | x, [] => x
  | x, y :: ys =>
    if (firstMaxConv y ys).conversion ≤ x.conversion then x else firstMaxConv y ys

/-- The head of the stable descending sort is the first maximum. -/
lemma jsSort_head : ∀ (xs : List TestResult) (x : TestResult),
    (jsSortByConversionDesc (x :: xs)).head? = some (firstMaxConv x xs)
  | [], x => by
    simp [jsSortByConversionDesc, List.insertionSort, List.orderedInsert, firstMaxConv]
  | y :: ys, x => by
    have ih := jsSort_head ys y
    unfold jsSortByConversionDesc at ih ⊢
    rw [show (x :: y :: ys).insertionSort convGe =
      (y :: ys |>.insertionSort convGe).orderedInsert convGe x from rfl]
    cases hs : (y :: ys).insertionSort convGe with
    | nil => rw [hs] at ih; simp at ih
    | cons m t =>
      rw [hs] at ih
      simp only [List.head?, Option.some.injEq] at ih
      subst ih
      rw [show firstMaxConv x (y :: ys) =
        (if (firstMaxConv y ys).conversion ≤ x.conversion then x else firstMaxConv y ys)
        from rfl]
      by_cases hc : (firstMaxConv y ys).conversion ≤ x.conversion
      · rw [List.orderedInsert, if_pos (show convGe x (firstMaxConv y ys) from hc), if_pos hc]
        rfl
      · rw [List.orderedInsert, if_neg (show ¬convGe x (firstMaxConv y ys) from hc), if_neg hc]
        rfl

/-- `firstMaxConv` really is the first maximum: it is a member, bounds
every conversion, and everything strictly before it is strictly smaller. -/
lemma firstMaxConv_spec : ∀ (xs : List TestResult) (x : TestResult),
    firstMaxConv x xs ∈ x :: xs ∧
    (∀ z ∈ x :: xs, z.conversion ≤ (firstMaxConv x xs).conversion) ∧
    ∃ l1 l2, x :: xs = l1 ++ firstMaxConv x xs :: l2 ∧
      ∀ z ∈ l1, z.conversion < (firstMaxConv x xs).conversion
  | [], x => by
    refine ⟨by simp [firstMaxConv], ?_, [], [], by simp [firstMaxConv], by simp⟩
    intro z hz
    rcases List.mem_singleton.mp hz with rfl
    simp [firstMaxConv]
  | y :: ys, x => by
    obtain ⟨ihmem, ihmax, l1, l2, ihsplit, ihlt⟩ := firstMaxConv_spec ys y
    unfold firstMaxConv
    by_cases hc : (firstMaxConv y ys).conversion ≤ x.conversion
    · rw [if_pos hc]
      refine ⟨by simp, ?_, [], y :: ys, by simp, by simp⟩
      intro z hz
      rcases List.mem_cons.mp hz with rfl | hz
      · exact le_refl _
      · exact le_trans (ihmax z hz) hc
    · rw [if_neg hc]
      push_neg at hc
      refine ⟨by simp [ihmem], ?_, x :: l1, l2, by rw [ihsplit, List.cons_append], ?_⟩
      · intro z hz
        rcases List.mem_cons.mp hz with rfl | hz
        · exact le_of_lt hc
        · exact ihmax z hz
      · intro z hz
        rcases List.mem_cons.mp hz with rfl | hz
        · exact hc
        · exact ihlt z hz

/-- **C4, amended.** For every listing whose stored variations hold *at
least two* variants, all tested (`tested_count ≥ titles.length`), with a
non-empty results list and a succeeding catalog update, `startABTest`
emits exactly one `apply_best_variation` action carrying the result with
the maximum conversion, ties broken in favour of the result appearing
first in the results sequence. -/
theorem c4_apply_winner (env : DailyEnv) (p : Prompt) (v : Variations)
    (hv : env.variations p.id = .ok (some v))
    (h2 : 2 ≤ v.titles.length)
    (hdone : v.titles.length ≤ v.tested_count)
    (hres : v.results ≠ [])
    (hupd : ∀ f, env.updatePrompt p.id f = .ok ()) :
    ∃ best, startABTestRun env p = some (.apply_best_variation p.id best) ∧
      best ∈ v.results ∧
      (∀ r ∈ v.results, r.conversion ≤ best.conversion) ∧
      ∃ l1 l2, v.results = l1 ++ best :: l2 ∧
        ∀ r ∈ l1, r.conversion < best.conversion := by
  obtain ⟨x, xs, hxs⟩ : ∃ x xs, v.results = x :: xs := by
    cases hr : v.results with
    | nil => exact absurd hr hres
    | cons x xs => exact ⟨x, xs, rfl⟩
  refine ⟨firstMaxConv x xs, ?_, ?_⟩
  · unfold startABTestRun startABTestBody
    simp only [hv]
    rw [if_neg (by omega), if_pos hdone, hxs]
    have hh := jsSort_head xs x
    cases hs : jsSortByConversionDesc (x :: xs) with
    | nil => rw [hs] at hh; simp at hh
    | cons b t =>
      rw [hs] at hh
      simp only [List.head?, Option.some.injEq] at hh
      subst hh
      simp [hupd]
  · rw [hxs]
    exact firstMaxConv_spec xs x

/-- A two-variant, fully tested variations record: the second result has
the higher conversion and must win. -/
def variationsDone : Variations :=
  { titles := ["t1", "t2"], descriptions := ["d1", "d2"], tested_count := 2,
    results := [⟨"t1", "d1", 3⟩, ⟨"t2", "d2", 7⟩] }

def dailyEnvDone : DailyEnv :=
  { variations := fun _ => .ok (some variationsDone),
    updatePrompt := fun _ _ => .ok (),
    trends := fun _ => .ok none,
    updatePromptPrice := fun _ _ => .ok () }

def promptDone : Prompt :=
  { id := 4, title := "t", description := "d", price := 50, conversion_rate := 1/20,
    views_last_hour := 5, total_views := 150, currently_testing := false,
    price_changed_recently := false }

theorem c4_witness :
    ∃ best, startABTestRun dailyEnvDone promptDone =
        some (.apply_best_variation promptDone.id best) ∧
      best ∈ variationsDone.results ∧
      (∀ r ∈ variationsDone.results, r.conversion ≤ best.conversion) ∧
      ∃ l1 l2, variationsDone.results = l1 ++ best :: l2 ∧
        ∀ r ∈ l1, r.conversion < best.conversion :=
  c4_apply_winner dailyEnvDone promptDone variationsDone rfl
    (by norm_num [variationsDone]) (by norm_num [variationsDone])
    (List.cons_ne_nil _ _) (fun _ => rfl)

/-- A single-variant variations record, fully tested, with a result. -/
def variationsOne : Variations :=
  { titles := ["t"], descriptions := ["d"], tested_count := 1,
    results := [⟨"t", "d", 5⟩] }

def dailyEnvOne : DailyEnv :=
  { variations := fun _ => .ok (some variationsOne),
    updatePrompt := fun _ _ => .ok (),
    trends := fun _ => .ok none,
    updatePromptPrice := fun _ _ => .ok () }

/-- **C4, counterexample.** With a single stored variant that has been
tested (`tested_count ≥ titles.length`) and a non-empty results list,
`startABTest` emits *no* action at all: the guard
`variations.titles.length <= 1` returns `null` before the winner branch
is reached. -/
theorem c4_counterexample :
    dailyEnvOne.variations promptDone.id = .ok (some variationsOne) ∧
    variationsOne.titles.length ≤ variationsOne.tested_count ∧
    variationsOne.results ≠ [] ∧
    startABTestRun dailyEnvOne promptDone = none := by
  refine ⟨rfl, by norm_num [variationsOne], List.cons_ne_nil _ _, rfl⟩

/-! ## Claim C5: next occurrence -/

lemma jsIndexOf_lt_length {x : String} : ∀ {l : List String} {i : ℕ},
    jsIndexOf x l = some i → i < l.length
  | [], i => by simp [jsIndexOf]
  | y :: ys, i => by
    intro h
    unfold jsIndexOf at h
    split at h
    · cases h; simp
    · cases hi : jsIndexOf x ys with
      | none => rw [hi] at h; simp at h
      | some j =>
        rw [hi] at h
        simp only [Option.map_some'] at h
        cases h
        have := jsIndexOf_lt_length hi
        simp only [List.length_cons]
        omega

/-- Closed form of `getNextOccurrence` for a valid day name: the number of
days added is `idx + 7 - weekday(now)` when `idx ≤ weekday(now)` and
`idx - weekday(now)` otherwise — the hour plays no role. -/
lemma getNextOccurrence_eq (day : String) (hour : ℕ) (now : SimpleTime) (idx : ℕ)
    (h : jsIndexOf day weekdayNames = some idx) :
    getNextOccurrence day hour now =
      ⟨now.dayNumber + (if idx ≤ now.dayNumber % 7 then idx + 7 - now.dayNumber % 7
        else idx - now.dayNumber % 7), hour⟩ := by
  unfold getNextOccurrence
  simp only [h]
  by_cases hle : (idx : ℤ) - (now.dayNumber % 7 : ℕ) ≤ 0
  · rw [if_pos hle, if_neg (by omega), if_pos (by omega)]
    congr 1
    omega
  · rw [if_neg hle, if_neg (by omega), if_neg (by omega)]
    congr 1
    omega

/-- **C5, counterexample.** `now` is a Monday at 01:00 and the target is
Monday at 23:00 — still ahead today, so the claimed "next future matching
timestamp" is today at 23:00; the code nevertheless jumps 7 days, because
after the `daysToAdd <= 0` bump the value is never 0 and the
"today but hour passed" guard is dead code. -/
theorem c5_counterexample :
    jsIndexOf "Monday" weekdayNames = some 1 ∧
    (⟨1, 1⟩ : SimpleTime).dayNumber % 7 = 1 ∧ (1 : ℕ) < 23 ∧
    getNextOccurrence "Monday" 23 ⟨1, 1⟩ = ⟨8, 23⟩ ∧
    specNextOccurrence 1 23 ⟨1, 1⟩ = ⟨1, 23⟩ ∧
    getNextOccurrence "Monday" 23 ⟨1, 1⟩ ≠ specNextOccurrence 1 23 ⟨1, 1⟩ := by
  decide

/-- **C5, amended.** An invalid day name yields tomorrow at the given
hour.  For a valid day name with index `idx`: when the target weekday
differs from today's, `getNextOccurrence` returns the next future
timestamp with that weekday and hour (`specNextOccurrence`); when the
target weekday *is* today's it always returns the occurrence exactly 7
days forward, even if the hour is still ahead today.  In every valid case
the result carries the requested hour and weekday and lies 1 to 7 days
ahead. -/
theorem c5_next_occurrence_schedule (day : String) (hour : ℕ) (now : SimpleTime) :
    (jsIndexOf day weekdayNames = none →
      getNextOccurrence day hour now = ⟨now.dayNumber + 1, hour⟩) ∧
    (∀ idx, jsIndexOf day weekdayNames = some idx →
      (idx = now.dayNumber % 7 →
        getNextOccurrence day hour now = ⟨now.dayNumber + 7, hour⟩) ∧
      (idx ≠ now.dayNumber % 7 →
        getNextOccurrence day hour now = specNextOccurrence idx hour now) ∧
      (getNextOccurrence day hour now).hour = hour ∧
      (getNextOccurrence day hour now).dayNumber % 7 = idx ∧
      now.dayNumber < (getNextOccurrence day hour now).dayNumber ∧
      (getNextOccurrence day hour now).dayNumber ≤ now.dayNumber + 7) := by
  constructor
  · intro h
    unfold getNextOccurrence
    rw [h]
  · intro idx h
    have hidx : idx < 7 := by
      have := jsIndexOf_lt_length h
      simpa [weekdayNames] using this
    have hwd : now.dayNumber % 7 < 7 := Nat.mod_lt _ (by omega)
    have heq := getNextOccurrence_eq day hour now idx h
    have hday : (getNextOccurrence day hour now).dayNumber =
        now.dayNumber + (if idx ≤ now.dayNumber % 7 then idx + 7 - now.dayNumber % 7
          else idx - now.dayNumber % 7) := by rw [heq]
    have hhour : (getNextOccurrence day hour now).hour = hour := by rw [heq]
    refine ⟨fun hc => ?_, fun hc => ?_, hhour, ?_, ?_, ?_⟩
    · rw [heq]
      subst hc
      rw [if_pos (le_refl _)]
      simp only [SimpleTime.mk.injEq, and_true]
      omega
    · have hspec : specNextOccurrence idx hour now =
          ⟨now.dayNumber + (if idx ≤ now.dayNumber % 7 then idx + 7 - now.dayNumber % 7
            else idx - now.dayNumber % 7), hour⟩ := by
        unfold specNextOccurrence
        rw [if_neg (fun hand => hc hand.1.symm)]
        have hm : ¬(idx + 7 - now.dayNumber % 7) % 7 = 0 := by omega
        rw [if_neg hm]
        simp only [SimpleTime.mk.injEq, and_true]
        split <;> omega
      rw [heq, hspec]
    · rw [hday]
      split <;> omega
    · rw [hday]
      split <;> omega
    · rw [hday]
      split <;> omega

theorem c5_witness :
    getNextOccurrence "Monday" 10 ⟨0, 9⟩ = specNextOccurrence 1 10 ⟨0, 9⟩ ∧
    specNextOccurrence 1 10 ⟨0, 9⟩ = ⟨1, 10⟩ := by
  refine ⟨((c5_next_occurrence_schedule "Monday" 10 ⟨0, 9⟩).2 1
    (by decide)).2.1 (by decide), by decide⟩

/-! ## Claims C3, C8: promotions -/

lemma jsRound_le (x : ℚ) : (jsRound x : ℚ) ≤ x + 1/2 := Int.floor_le _

lemma lt_jsRound (x : ℚ) : x - 1/2 < (jsRound x : ℚ) := by
  have h := Int.lt_floor_add_one (x + 1/2)
  unfold jsRound
  push_cast at h ⊢
  linarith

lemma jsRound_eq (x : ℚ) (z : ℤ) (h1 : (z : ℚ) ≤ x + 1/2) (h2 : x + 1/2 < z + 1) :
    jsRound x = z := by
  unfold jsRound
  rw [Int.floor_eq_iff]
  constructor
  · exact_mod_cast h1
  · exact_mod_cast h2

/-- Rounding the discounted price and then rounding the inverse division
recovers the original integral price up to one currency unit, for any
discount between 0 and 50%. -/
lemma round_trip_close (n : ℤ) (d : ℚ) (h0 : 0 ≤ d) (h50 : d ≤ 50) :
    |((jsRound (((jsRound ((n : ℚ) * (1 - d / 100)) : ℤ) : ℚ) / (1 - d / 100)) : ℤ) : ℚ)
      - (n : ℚ)| ≤ 1 := by
  obtain ⟨f, hf⟩ : ∃ f : ℚ, f = 1 - d / 100 := ⟨_, rfl⟩
  rw [← hf]
  have hfpos : 0 < f := by rw [hf]; linarith
  have hfhalf : 1/2 ≤ f := by rw [hf]; linarith
  have hq1 := jsRound_le ((n : ℚ) * f)
  have hq2 := lt_jsRound ((n : ℚ) * f)
  generalize hqdef : jsRound ((n : ℚ) * f) = q at hq1 hq2 ⊢
  have hdiv1 : (q : ℚ) / f ≤ (n : ℚ) + 1 := by
    rw [div_le_iff₀ hfpos]
    have hexp : ((n : ℚ) + 1) * f = (n : ℚ) * f + f := by ring
    linarith
  have hdiv2 : (n : ℚ) - 1 < (q : ℚ) / f := by
    rw [lt_div_iff₀ hfpos]
    have hexp : ((n : ℚ) - 1) * f = (n : ℚ) * f - f := by ring
    linarith
  have hr1 := jsRound_le ((q : ℚ) / f)
  have hr2 := lt_jsRound ((q : ℚ) / f)
  generalize hrdef : jsRound ((q : ℚ) / f) = r at hr1 hr2 ⊢
  have hru : (r : ℚ) < (n : ℚ) + 2 := by linarith
  have hrl : (n : ℚ) - 2 < (r : ℚ) := by linarith
  have hru' : r ≤ n + 1 := by
    have h' : r < n + 2 := by exact_mod_cast hru
    omega
  have hrl' : n - 1 ≤ r := by
    have h' : n - 2 < r := by exact_mod_cast hrl
    omega
  rw [abs_le]
  constructor
  · have h' : ((n - 1 : ℤ) : ℚ) ≤ (r : ℚ) := by exact_mod_cast hrl'
    push_cast at h'
    linarith
  · have h' : (r : ℚ) ≤ ((n + 1 : ℤ) : ℚ) := by exact_mod_cast hru'
    push_cast at h'
    linarith

/-- **C3.** Applying a promotion of `d ∈ [0,50]` percent to a listing with
integral price `n` that is not already on promotion, and then removing it,
yields a price within ±1 currency unit of `n`. -/
theorem c3_promotion_round_trip (p : Prompt) (n : ℤ) (d durationHours now : ℚ)
    (hprice : p.price = (n : ℚ)) (hnp : p.on_promotion = false)
    (h0 : 0 ≤ d) (h50 : d ≤ 50) :
    |(removePromotionFromPrompt (applyPromotionToPrompt p d durationHours now).1).1.price
      - (n : ℚ)| ≤ 1 := by
  have h1 : (applyPromotionToPrompt p d durationHours now).1 =
      { p with price := ((jsRound (p.price * (1 - d / 100)) : ℤ) : ℚ),
               on_promotion := true, promotion_percentage := d } := by
    unfold applyPromotionToPrompt
    rw [if_neg (by rw [hnp]; simp)]
    unfold applyFields
    simp [min_eq_left h50]
  have h2 : (removePromotionFromPrompt (applyPromotionToPrompt p d durationHours now).1).1.price =
      ((jsRound (((jsRound ((n : ℚ) * (1 - d / 100)) : ℤ) : ℚ) / (1 - d / 100)) : ℤ) : ℚ) := by
    rw [h1]
    unfold removePromotionFromPrompt
    rw [if_neg (by simp)]
    unfold applyFields
    simp [hprice]
  rw [h2]
  exact round_trip_close n d h0 h50

theorem c3_witness :
    |(removePromotionFromPrompt (applyPromotionToPrompt promptScenario 30 24 0).1).1.price
      - ((100 : ℤ) : ℚ)| ≤ 1 :=
  c3_promotion_round_trip promptScenario 100 30 24 0 (by norm_num [promptScenario])
    rfl (by norm_num) (by norm_num)

/-- **C8.** `applyPromotionToPrompt`: a listing already on promotion is
returned unchanged with no mutation; otherwise the applied discount is
`min(discountPercent, 50)`, the applied duration is
`min(durationHours, 72)` (visible as the scheduled end date), and the new
price is `round(price * (1 - discount/100))`. -/
theorem c8_apply_promotion_contract (p : Prompt) (d durH now : ℚ) :
    (p.on_promotion = true → applyPromotionToPrompt p d durH now = (p, none)) ∧
    (p.on_promotion = false →
      ∃ fields, applyPromotionToPrompt p d durH now = (applyFields p fields, some fields) ∧
        fields.promotion_percentage = some (min d 50) ∧
        fields.price = some ((jsRound (p.price * (1 - min d 50 / 100)) : ℤ) : ℚ) ∧
        fields.promotion_end_date = some (now + min durH maxPromotionDuration * 60 * 60 * 1000) ∧
        fields.on_promotion = some true ∧
        fields.title = none ∧ fields.description = none ∧ fields.currently_testing = none) := by
  constructor
  · intro h
    unfold applyPromotionToPrompt
    rw [if_pos h]
  · intro h
    unfold applyPromotionToPrompt
    rw [if_neg (by rw [h]; simp)]
    exact ⟨_, rfl, rfl, rfl, rfl, rfl, rfl, rfl, rfl⟩

/-- A listing already on promotion. -/
def promptOnPromo : Prompt :=
  { id := 11, title := "t", description := "d", price := 85, conversion_rate := 1/10,
    views_last_hour := 5, total_views := 100, currently_testing := false,
    price_changed_recently := false, on_promotion := true, promotion_percentage := 15 }

theorem c8_witness :
    applyPromotionToPrompt promptOnPromo 30 24 0 = (promptOnPromo, none) ∧
    (applyPromotionToPrompt promptScenario 30 24 0).1.price = 70 := by
  constructor
  · exact (c8_apply_promotion_contract promptOnPromo 30 24 0).1 rfl
  · obtain ⟨fields, heq, -, hpr, -, -, -, -, -⟩ :=
      (c8_apply_promotion_contract promptScenario 30 24 0).2 rfl
    rw [heq]
    show (applyFields promptScenario fields).price = 70
    unfold applyFields
    rw [hpr]
    have : jsRound ((promptScenario.price : ℚ) * (1 - min (30:ℚ) 50 / 100)) = 70 := by
      apply jsRound_eq
      · norm_num [promptScenario, min_def]
      · norm_num [promptScenario, min_def]
    simp [this]

/-! ## Claim C10: API price clamp -/

/-- **C10.** For every caller-supplied price the API client writes
`min(max(round(p), minPrice), maxPrice)` — an integer within the
configured `[minPrice, maxPrice]` (bounds being integral and ordered) —
so the stored price may differ from the price the engine computed: the
engine's recorded decrease to 190 (see `promptOverMax`) is stored as 150
under the client's default bounds. -/
theorem c10_api_price_clamp (minPrice maxPrice : ℤ) (h : minPrice ≤ maxPrice) (price : ℚ) :
    updatePromptPriceSent (minPrice : ℚ) (maxPrice : ℚ) price =
      ((min (max (jsRound price) minPrice) maxPrice : ℤ) : ℚ) ∧
    (minPrice : ℚ) ≤ updatePromptPriceSent (minPrice : ℚ) (maxPrice : ℚ) price ∧
    updatePromptPriceSent (minPrice : ℚ) (maxPrice : ℚ) price ≤ (maxPrice : ℚ) ∧
    updatePromptPriceSent apiDefaultMinPrice apiDefaultMaxPrice 190 = 150 ∧
    (190 : ℚ) ≠ 150 := by
  refine ⟨?_, ?_, ?_, ?_, by norm_num⟩
  · unfold updatePromptPriceSent
    push_cast
    rfl
  · unfold updatePromptPriceSent
    exact le_min (le_max_right _ _) (by exact_mod_cast h)
  · unfold updatePromptPriceSent
    exact min_le_right _ _
  · unfold updatePromptPriceSent
    rw [show jsRound (190 : ℚ) = 190 from jsRound_eq _ _ (by norm_num) (by norm_num)]
    norm_num [apiDefaultMinPrice, apiDefaultMaxPrice, min_def, max_def]

theorem c10_witness :
    ((10 : ℤ) : ℚ) ≤ updatePromptPriceSent ((10 : ℤ) : ℚ) ((150 : ℤ) : ℚ) (1037/10) ∧
    updatePromptPriceSent ((10 : ℤ) : ℚ) ((150 : ℤ) : ℚ) (1037/10) ≤ ((150 : ℤ) : ℚ) :=
  ⟨(c10_api_price_clamp 10 150 (by norm_num) (1037/10)).2.1,
   (c10_api_price_clamp 10 150 (by norm_num) (1037/10)).2.2.1⟩

/-! ## Claim C9: low-activity periods -/

/-- Lookup in the bucket map by (weekday, hour) key. -/
def findBucket (l : List Period) (d h : ℕ) : Option Period :=
  l.find? fun b => decide (b.day = d ∧ b.hour = h)

/-- Number of data points falling into the (d, h) bucket. -/
def bucketCount (analytics : List DataPoint) (d h : ℕ) : ℕ :=
  (analytics.filter fun dp =>
    decide (dayOf dp.timestamp = d ∧ hourOf dp.timestamp = h)).length

/-- Total visits of the data points falling into the (d, h) bucket. -/
def bucketVisits (analytics : List DataPoint) (d h : ℕ) : ℚ :=
  ((analytics.filter fun dp =>
    decide (dayOf dp.timestamp = d ∧ hourOf dp.timestamp = h)).map
      fun dp => dp.visits.getD 0).sum

lemma findBucket_addPoint_same : ∀ (l : List Period) (d h : ℕ) (v : ℚ),
    findBucket (addPoint l d h v) d h =
      some (match findBucket l d h with
        | some b => { b with count := b.count + 1, visits := b.visits + v }
        | none => { day := d, hour := h, count := 1, visits := v, avgVisits := 0 })
  | [], d, h, v => by simp [findBucket, addPoint]
  | b :: bs, d, h, v => by
    by_cases hb : b.day = d ∧ b.hour = h
    · obtain ⟨hd, hh⟩ := hb
      simp [findBucket, addPoint, hd, hh]
    · have ih := findBucket_addPoint_same bs d h v
      unfold addPoint
      rw [if_neg hb]
      unfold findBucket at ih ⊢
      rw [List.find?_cons_of_neg _ (by simpa using hb),
          List.find?_cons_of_neg _ (by simpa using hb)]
      exact ih

lemma findBucket_addPoint_other : ∀ (l : List Period) (d h : ℕ) (v : ℚ) (e g : ℕ),
    ¬(d = e ∧ h = g) →
    findBucket (addPoint l d h v) e g = findBucket l e g
  | [], d, h, v, e, g => by
    intro hne
    simp only [addPoint, findBucket]
    rw [List.find?_cons_of_neg _ (by simpa using hne)]
  | b :: bs, d, h, v, e, g => by
    intro hne
    by_cases hb : b.day = d ∧ b.hour = h
    · obtain ⟨hd, hh⟩ := hb
      unfold addPoint
      rw [if_pos ⟨hd, hh⟩]
      have hbne : ¬(b.day = e ∧ b.hour = g) := by
        rw [hd, hh]
        exact hne
      unfold findBucket
      rw [List.find?_cons_of_neg _ (by simpa using hbne),
          List.find?_cons_of_neg _ (by simpa using hbne)]
    · unfold addPoint
      rw [if_neg hb]
      by_cases hbk : b.day = e ∧ b.hour = g
      · obtain ⟨hd, hh⟩ := hbk
        unfold findBucket
        rw [List.find?_cons_of_pos _ (by simp [hd, hh]),
            List.find?_cons_of_pos _ (by simp [hd, hh])]
      · have ih := findBucket_addPoint_other bs d h v e g hne
        unfold findBucket at ih ⊢
        rw [List.find?_cons_of_neg _ (by simpa using hbk),
            List.find?_cons_of_neg _ (by simpa using hbk)]
        exact ih

/-- Grouping correctness: after folding the whole series into the bucket
map, the entry at key (d, h) carries exactly the count and visit total of
the data points with that key (on top of whatever the accumulator held). -/
lemma findBucket_foldl : ∀ (analytics : List DataPoint) (acc : List Period) (d h : ℕ),
    findBucket (analytics.foldl (fun a dp =>
        addPoint a (dayOf dp.timestamp) (hourOf dp.timestamp) (dp.visits.getD 0)) acc) d h =
      match findBucket acc d h with
      | some b => some { b with count := b.count + bucketCount analytics d h, visits := b.visits + bucketVisits analytics d h }
      | none =>
        if bucketCount analytics d h = 0 then none
        else some { day := d, hour := h, count := bucketCount analytics d h, visits := bucketVisits analytics d h, avgVisits := 0 }
  | [], acc, d, h => by
    simp only [List.foldl_nil, bucketCount, bucketVisits, List.filter_nil,
      List.length_nil, List.map_nil, List.sum_nil]
    cases hfb : findBucket acc d h with
    | none => simp
    | some b => simp
  | dp :: rest, acc, d, h => by
    have ih := findBucket_foldl rest (addPoint acc (dayOf dp.timestamp) (hourOf dp.timestamp)
      (dp.visits.getD 0)) d h
    rw [List.foldl_cons, ih]
    by_cases hkey : dayOf dp.timestamp = d ∧ hourOf dp.timestamp = h
    · obtain ⟨hd, hh⟩ := hkey
      have hc : bucketCount (dp :: rest) d h = bucketCount rest d h + 1 := by
        unfold bucketCount
        rw [List.filter_cons_of_pos (by simp [hd, hh])]
        simp
      have hv : bucketVisits (dp :: rest) d h = dp.visits.getD 0 + bucketVisits rest d h := by
        unfold bucketVisits
        rw [List.filter_cons_of_pos (by simp [hd, hh])]
        simp
      rw [hd, hh, findBucket_addPoint_same, hc, hv]
      cases hacc : findBucket acc d h with
      | some b =>
        obtain ⟨bd, bh, bc, bv, ba⟩ := b
        simp only [Option.some.injEq, Period.mk.injEq]
        repeat' apply And.intro
        all_goals first | rfl | omega | ring | trivial
      | none =>
        show some ({ day := d, hour := h, count := 1 + bucketCount rest d h, visits := dp.visits.getD 0 + bucketVisits rest d h, avgVisits := (0:ℚ) } : Period) =
          if bucketCount rest d h + 1 = 0 then (none : Option Period)
          else some ({ day := d, hour := h, count := bucketCount rest d h + 1, visits := dp.visits.getD 0 + bucketVisits rest d h, avgVisits := 0 } : Period)
        rw [if_neg (show ¬(bucketCount rest d h + 1 = 0) from by omega)]
        simp only [Option.some.injEq, Period.mk.injEq]
        repeat' apply And.intro
        all_goals first | rfl | omega | ring | trivial
    · have hc : bucketCount (dp :: rest) d h = bucketCount rest d h := by
        unfold bucketCount
        rw [List.filter_cons_of_neg (by simpa using hkey)]
      have hv : bucketVisits (dp :: rest) d h = bucketVisits rest d h := by
        unfold bucketVisits
        rw [List.filter_cons_of_neg (by simpa using hkey)]
      rw [findBucket_addPoint_other acc _ _ _ d h hkey, hc, hv]

/-- Two bucket entries with distinct (day, hour) keys. -/
def keyDistinct (a b : Period) : Prop := ¬(a.day = b.day ∧ a.hour = b.hour)

lemma mem_addPoint_key : ∀ (l : List Period) (d h : ℕ) (v : ℚ) (x : Period),
    x ∈ addPoint l d h v →
    (∃ y ∈ l, x.day = y.day ∧ x.hour = y.hour) ∨ (x.day = d ∧ x.hour = h)
  | [], d, h, v, x => by
    intro hx
    simp only [addPoint, List.mem_singleton] at hx
    subst hx
    right
    exact ⟨rfl, rfl⟩
  | b :: bs, d, h, v, x => by
    intro hx
    by_cases hb : b.day = d ∧ b.hour = h
    · unfold addPoint at hx
      rw [if_pos hb] at hx
      rcases List.mem_cons.mp hx with rfl | hxs
      · left; exact ⟨b, by simp, rfl, rfl⟩
      · left; exact ⟨x, by simp [hxs], rfl, rfl⟩
    · unfold addPoint at hx
      rw [if_neg hb] at hx
      rcases List.mem_cons.mp hx with rfl | hxs
      · left; exact ⟨x, by simp, rfl, rfl⟩
      · rcases mem_addPoint_key bs d h v x hxs with ⟨y, hy, hk⟩ | hk
        · left; exact ⟨y, by simp [hy], hk⟩
        · right; exact hk

lemma keyUnique_addPoint : ∀ (l : List Period) (d h : ℕ) (v : ℚ),
    l.Pairwise keyDistinct → (addPoint l d h v).Pairwise keyDistinct
  | [], d, h, v => by
    intro _
    simp [addPoint]
  | b :: bs, d, h, v => by
    intro hpw
    rw [List.pairwise_cons] at hpw
    obtain ⟨hb1, hb2⟩ := hpw
    by_cases hb : b.day = d ∧ b.hour = h
    · unfold addPoint
      rw [if_pos hb, List.pairwise_cons]
      exact ⟨fun y hy => hb1 y hy, hb2⟩
    · unfold addPoint
      rw [if_neg hb, List.pairwise_cons]
      refine ⟨?_, keyUnique_addPoint bs d h v hb2⟩
      intro y hy
      rcases mem_addPoint_key bs d h v y hy with ⟨z, hz, hk⟩ | hk
      · intro hcon
        exact hb1 z hz ⟨hcon.1.trans hk.1, hcon.2.trans hk.2⟩
      · intro hcon
        exact hb ⟨hcon.1.trans hk.1, hcon.2.trans hk.2⟩

lemma keyUnique_grouped : ∀ (analytics : List DataPoint) (acc : List Period),
    acc.Pairwise keyDistinct →
    (analytics.foldl (fun a dp =>
      addPoint a (dayOf dp.timestamp) (hourOf dp.timestamp)
        (dp.visits.getD 0)) acc).Pairwise keyDistinct
  | [], _ => fun hacc => hacc
  | dp :: rest, acc => fun hacc =>
    keyUnique_grouped rest _ (keyUnique_addPoint acc _ _ _ hacc)

lemma findBucket_of_mem : ∀ (l : List Period), l.Pairwise keyDistinct →
    ∀ b ∈ l, findBucket l b.day b.hour = some b
  | [], _, b, hb => by simp at hb
  | x :: xs, hpw, b, hb => by
    rw [List.pairwise_cons] at hpw
    rcases List.mem_cons.mp hb with rfl | hbs
    · unfold findBucket
      rw [List.find?_cons_of_pos _ (by simp)]
    · unfold findBucket
      rw [List.find?_cons_of_neg _ (by simp only [decide_eq_true_eq]; exact hpw.1 b hbs)]
      exact findBucket_of_mem xs hpw.2 b hbs

/-- The bucket map lookup as count/visit totals over the raw series. -/
lemma findBucket_grouped (analytics : List DataPoint) (d h : ℕ) :
    findBucket (groupedPeriods analytics) d h =
      if bucketCount analytics d h = 0 then none
      else some { day := d, hour := h, count := bucketCount analytics d h, visits := bucketVisits analytics d h, avgVisits := 0 } := by
  unfold groupedPeriods
  rw [findBucket_foldl analytics [] d h, show findBucket [] d h = none from rfl]

/-- Every entry of the bucket map carries exactly its bucket's count and
visit total. -/
lemma mem_grouped_canonical (analytics : List DataPoint) (b : Period)
    (hb : b ∈ groupedPeriods analytics) :
    b.count = bucketCount analytics b.day b.hour ∧
    b.visits = bucketVisits analytics b.day b.hour ∧ b.avgVisits = 0 := by
  have h1 : findBucket (groupedPeriods analytics) b.day b.hour = some b :=
    findBucket_of_mem _ (keyUnique_grouped analytics [] List.Pairwise.nil) b hb
  rw [findBucket_grouped] at h1
  by_cases hc : bucketCount analytics b.day b.hour = 0
  · rw [if_pos hc] at h1
    cases h1
  · rw [if_neg hc] at h1
    obtain ⟨bd, bh, bc, bv, ba⟩ := b
    simp only [Option.some.injEq, Period.mk.injEq] at h1
    exact ⟨h1.2.2.1.symm, h1.2.2.2.1.symm, h1.2.2.2.2.symm⟩

lemma bucketCount_pos_of_mem (analytics : List DataPoint) (dp : DataPoint)
    (hdp : dp ∈ analytics) :
    ¬bucketCount analytics (dayOf dp.timestamp) (hourOf dp.timestamp) = 0 := by
  unfold bucketCount
  intro hlen
  rw [List.length_eq_zero] at hlen
  have hmem : dp ∈ analytics.filter fun dp' =>
      decide (dayOf dp'.timestamp = dayOf dp.timestamp ∧
        hourOf dp'.timestamp = hourOf dp.timestamp) := by
    rw [List.mem_filter]
    exact ⟨hdp, by simp⟩
  rw [hlen] at hmem
  simp at hmem

/-- **C9.** `findLowActivityPeriods` buckets the series by (weekday,
hour-of-day), averages visits per bucket, excludes the night hours, and
returns at most 5 buckets sorted ascending by average — and they are the
lowest ones: together with the dropped remainder of the sort they form
exactly the filtered bucket set, every kept entry averaging no more than
every dropped one.  Each returned entry's count/visits/average agree with
the raw series, and every data point outside the night window has its
bucket in the filtered set. -/
theorem c9_low_activity_windows (analytics : List DataPoint) :
    (findLowActivityPeriods analytics).length ≤ 5 ∧
    List.Sorted leAvg (findLowActivityPeriods analytics) ∧
    (∀ e ∈ findLowActivityPeriods analytics,
      7 ≤ e.hour ∧ e.hour ≤ 23 ∧
      e.count = bucketCount analytics e.day e.hour ∧
      e.visits = bucketVisits analytics e.day e.hour ∧
      e.avgVisits = e.visits / (e.count : ℚ)) ∧
    (∀ e ∈ findLowActivityPeriods analytics, ∀ b ∈ (sortedPeriods analytics).drop 5,
      e.avgVisits ≤ b.avgVisits) ∧
    (findLowActivityPeriods analytics ++ (sortedPeriods analytics).drop 5).Perm
      (filteredPeriods analytics) ∧
    (∀ dp ∈ analytics, 7 ≤ hourOf dp.timestamp →
      ∃ b ∈ filteredPeriods analytics,
        b.day = dayOf dp.timestamp ∧ b.hour = hourOf dp.timestamp) := by
  have hsorted : List.Sorted leAvg (sortedPeriods analytics) :=
    List.sorted_insertionSort leAvg _
  have hperm : (sortedPeriods analytics).Perm (filteredPeriods analytics) :=
    List.perm_insertionSort leAvg _
  refine ⟨?_, ?_, ?_, ?_, ?_, ?_⟩
  · unfold findLowActivityPeriods
    rw [List.length_take]
    omega
  · exact List.Pairwise.sublist (List.take_sublist 5 _) hsorted
  · intro e he
    have hes : e ∈ sortedPeriods analytics := List.mem_of_mem_take he
    have hef : e ∈ filteredPeriods analytics := hperm.mem_iff.mp hes
    unfold filteredPeriods at hef
    rw [List.mem_filter] at hef
    obtain ⟨hew, hhour⟩ := hef
    rw [decide_eq_true_eq] at hhour
    unfold periodsWithAvg at hew
    rw [List.mem_map] at hew
    obtain ⟨b, hbg, hbe⟩ := hew
    obtain ⟨hcnt, hvis, -⟩ := mem_grouped_canonical analytics b hbg
    subst hbe
    exact ⟨hhour.1, hhour.2, by simpa using hcnt, by simpa using hvis, rfl⟩
  · intro e he b hb
    have h5 := hsorted
    rw [← List.take_append_drop 5 (sortedPeriods analytics)] at h5
    exact (List.pairwise_append.mp h5).2.2 e he b hb
  · exact (List.take_append_drop 5 (sortedPeriods analytics)).symm ▸ hperm
  · intro dp hdp hh
    have hcnt := bucketCount_pos_of_mem analytics dp hdp
    have hfb := findBucket_grouped analytics (dayOf dp.timestamp) (hourOf dp.timestamp)
    rw [if_neg hcnt] at hfb
    have hmem := List.mem_of_find?_eq_some hfb
    refine ⟨{ day := dayOf dp.timestamp, hour := hourOf dp.timestamp,
              count := bucketCount analytics (dayOf dp.timestamp) (hourOf dp.timestamp),
              visits := bucketVisits analytics (dayOf dp.timestamp) (hourOf dp.timestamp),
              avgVisits := bucketVisits analytics (dayOf dp.timestamp) (hourOf dp.timestamp) /
                (bucketCount analytics (dayOf dp.timestamp) (hourOf dp.timestamp) : ℚ) },
            ?_, rfl, rfl⟩
    unfold filteredPeriods
    rw [List.mem_filter]
    refine ⟨?_, ?_⟩
    · unfold periodsWithAvg
      rw [List.mem_map]
      exact ⟨_, hmem, rfl⟩
    · have h23 : hourOf dp.timestamp ≤ 23 := by
        unfold hourOf
        omega
      simpa using ⟨hh, h23⟩

/-- The spec's two-bucket scenario: Monday 09:00 with 10 visits and
Monday 10:00 with 50 visits (hours 33 and 34 of the week). -/
def dataC9 : List DataPoint := [⟨33, some 10⟩, ⟨34, some 50⟩]

theorem c9_witness :
    (∃ b ∈ filteredPeriods dataC9, b.day = dayOf 33 ∧ b.hour = hourOf 33) ∧
    (findLowActivityPeriods dataC9).length ≤ 5 :=
  ⟨(c9_low_activity_windows dataC9).2.2.2.2.2 ⟨33, some 10⟩
      (List.mem_cons_self _ _) (by decide),
   (c9_low_activity_windows dataC9).1⟩
